import Mathlib

/-!
A shallow embedding of the sizing-and-pricing engine of the
`rvtools-aws-cost-estimator` repository (package `rv2aws`), together with
theorems settling the specification claims about it.

Conventions of the embedding:
* Python `int` is modelled as `ℤ`, Python `float` as `ℚ` (the claims under
  scrutiny are exact decimal computations; binary-float representation
  artifacts are out of scope).
* A Python function that can raise is modelled as returning
  `Except PyErr _`; `assert` failures map to `PyErr.assertionError`,
  `list.index` and `int(...)` failures to `PyErr.valueError`, subscript
  failures to `PyErr.indexError`.
* Network-backed price lookups (`get_price`, `get_storage_cost` in
  `aws_pricing.py`) are abstracted as explicit function parameters, since
  their results are external inputs to the logic under verification.
-/

namespace Rv2aws

/-- Python exception kinds that the modelled code can raise.  `outOfFuel`
is an artifact of modelling the `while` loop of
`get_correct_instance_size` with a fuel parameter; the supplied fuel is
always sufficient on the inputs the theorems speak about. -/
inductive PyErr where
  | assertionError
  | valueError
  | indexError
  | outOfFuel
deriving DecidableEq, Repr

instance {ε α : Type} [DecidableEq ε] [DecidableEq α] : DecidableEq (Except ε α) :=
  fun a b =>
    match a, b with
    | .ok x, .ok y =>
      if h : x = y then .isTrue (by rw [h])
      else .isFalse (by intro hc; cases hc; exact h rfl)
    | .error x, .error y =>
      if h : x = y then .isTrue (by rw [h])
      else .isFalse (by intro hc; cases hc; exact h rfl)
    | .ok _, .error _ => .isFalse (by intro hc; cases hc)
    | .error _, .ok _ => .isFalse (by intro hc; cases hc)

/-- Python `round` on an exact rational: round half to even. -/
def pyRound (q : ℚ) : ℤ :=
  let f := ⌊q⌋
  let r := q - (f : ℚ)
  if r < 1/2 then f
  else if 1/2 < r then f + 1
  else if f % 2 = 0 then f else f + 1

/-- Python `float('%.2f' % q)`: round to 2 decimal places. -/
def round2 (q : ℚ) : ℚ := (pyRound (q * 100) : ℚ) / 100

/-- Python `int(...)` applied to a float: truncation toward zero. -/
def pyTrunc (q : ℚ) : ℤ := if q < 0 then -⌊-q⌋ else ⌊q⌋

/-- Python `str.replace(',', '')`: drop every comma. -/
def stripCommas (s : String) : String :=
  String.mk (s.data.filter (fun c => c ≠ ','))

/-- Accumulate decimal digits; `none` as soon as a non-digit appears. -/
def digitsToNat : List Char → ℕ → Option ℕ
  | [], acc => some acc
  | c :: cs, acc =>
    if 48 ≤ c.toNat ∧ c.toNat ≤ 57 then digitsToNat cs (acc * 10 + (c.toNat - 48))
    else none

/-- Python `int(s)` on a string: an optional minus sign followed by at
least one decimal digit; `ValueError` otherwise. -/
def pyIntOfString (s : String) : Except PyErr ℤ :=
  match s.data with
  | [] => .error .valueError
  | '-' :: rest =>
    if rest = [] then .error .valueError
    else
      match digitsToNat rest 0 with
      | some n => .ok (-(n : ℤ))
      | none => .error .valueError
  | l =>
    match digitsToNat l 0 with
    | some n => .ok (n : ℤ)
    | none => .error .valueError

/-! ### Data model

The record shapes that flow through the pipeline (`main.py`,
`data_processing.py`, `aws_instance.py`). -/

/-- One EC2 instance type as produced by
`aws_instance.fetch_instance_types`: `{"type": ..., "CPU": ..., "RAM": ...}`. -/
structure IType where
  type : String
  CPU : ℤ
  RAM : ℚ
deriving DecidableEq, Repr

/-- A disk row loaded from the vDisk table by
`data_processing.load_storage_records_from_csv`:
`{"Capacity": ..., "VM": ...}`. -/
structure Disk where
  Capacity : String
  VM : String
deriving DecidableEq, Repr

/-- A host row as built by `data_processing.load_host_records_from_csv`:
the RAM value is still the raw CSV string at this stage. -/
structure CsvHost where
  CPUs : ℤ
  RAM : String
  VM : String
  OS : String
deriving DecidableEq, Repr

/-- A host record after `data_processing.process_host_ram`:
`{"CPUs": int, "RAM": float, "VM": str, "OS": str}`.  (The `if not host` /
missing-key guards of `find_aws_instance` concern empty or key-less
dicts, which this structured record cannot represent; records produced by
the loader always carry all four keys.) -/
structure ProcHost where
  CPUs : ℤ
  RAM : ℚ
  VM : String
  OS : String
deriving DecidableEq, Repr

/-- Result of `aws_pricing.get_three_year_storage_cost`:
`{"Storage": gbytes, "Storage Cost": float(three_year_cost)}`. -/
structure StorageInfo where
  Storage : ℚ
  StorageCost : ℚ
deriving DecidableEq, Repr

/-- The record returned by `aws_instance.find_aws_instance`: the input
host fields merged with the 3-year-reserved type and cost, the storage
fields, the total, and the per-model cost details. -/
structure HostRecord where
  VM : String
  OS : String
  CPUs : ℤ
  RAM : ℚ
  InstanceType : Option String
  InstanceCost : Option ℤ
  Storage : ℚ
  StorageCost : ℚ
  Total : ℚ
  onDemandDetail : Option String × Option ℤ
  oneYearDetail : Option String × Option ℤ
  threeYearDetail : Option String × Option ℤ
deriving DecidableEq, Repr

/-! ### utils.py -/

/-- Python `bisect.bisect_left(a, key)`: on the sorted lists this code
searches, the insertion point is the number of elements below `key`,
i.e. the length of the longest prefix of elements `< key`. -/
def bisect_left {α : Type} [LinearOrder α] (a : List α) (key : α) : ℕ :=
  (a.takeWhile (fun x => decide (x < key))).length

/-- `utils.find_greater_than_or_equal(a, key)`: `assert a and key`, then
return `a[bisect_left(a, key)]`, raising `ValueError` when the insertion
point is past the end. -/
def find_greater_than_or_equal {α : Type} [LinearOrder α] [Zero α]
    (a : List α) (key : α) : Except PyErr α :=
  if a = [] ∨ key = 0 then .error .assertionError
  else if h : bisect_left a key < a.length then .ok (a.get ⟨bisect_left a key, h⟩)
  else .error .valueError

/-! ### aws_instance.py -/

/-- Insert into a strictly sorted list, skipping duplicates. -/
def insertUnique {α : Type} [LinearOrder α] (x : α) : List α → List α
  | [] => [x]
  | y :: ys =>
    if x < y then x :: y :: ys
    else if x = y then y :: ys
    else y :: insertUnique x ys

/-- Python `sorted(set(l))`: the distinct values in ascending order. -/
def sortedDistinct {α : Type} [LinearOrder α] (l : List α) : List α :=
  l.foldr insertUnique []

/-- `aws_instance.extract_list_from_instance_types(key, types)`: collect
the values of one field into a set and sort it.  The Python `key`
argument selects the "CPU" or "RAM" entry; here it is the corresponding
field projection (the `assert key` guard is vacuous for these constant
keys). -/
def extract_list_from_instance_types {α : Type} [LinearOrder α]
    (field : IType → α) (types : List IType) : List α :=
  sortedDistinct (types.map field)

/-- `aws_instance.get_minimum_cpu_size(types)`: Python sorts by the CPU
value and takes element 0, i.e. the minimum CPU value; an empty list
raises `IndexError`. -/
def get_minimum_cpu_size (types : List IType) : Except PyErr ℤ :=
  match (types.map (fun t => t.CPU)).min? with
  | some m => .ok m
  | none => .error .indexError

/-- `aws_instance.get_minimum_ram_size(types)`: Python sorts by the RAM
value and takes element 0, i.e. the minimum RAM value; an empty list
raises `IndexError`. -/
def get_minimum_ram_size (types : List IType) : Except PyErr ℚ :=
  match (types.map (fun t => t.RAM)).min? with
  | some m => .ok m
  | none => .error .indexError

/-- Python `list.index(x)`: position of the first occurrence. -/
def pyIndex {α : Type} [DecidableEq α] (x : α) : List α → Option ℕ
  | [] => none
  | y :: ys => if y = x then some 0 else (pyIndex x ys).map (fun i => i + 1)

/-- `aws_instance.get_next_ram_size(sizes, ram)`: `assert ram and sizes`;
`current = sizes.index(ram) + 1` (`ValueError` when absent);
`assert len(sizes) > current`; return `sizes[current]`. -/
def get_next_ram_size (sizes : List ℚ) (ram : ℚ) : Except PyErr ℚ :=
  if ram = 0 ∨ sizes = [] then .error .assertionError
  else
    match pyIndex ram sizes with
    | none => .error .valueError
    | some idx =>
      if h : idx + 1 < sizes.length then .ok (sizes.get ⟨idx + 1, h⟩)
      else .error .assertionError

/-- `aws_instance.lookup_type(cpu, ram, types)`: `assert cpu and ram`,
then collect the identifiers of the entries whose specs equal
`(cpu, ram)` exactly.  Python iterates the list stably sorted by
`(CPU, RAM)`; since every match shares the one key `(cpu, ram)`, the
matches appear in their original relative order, so the result equals
filtering the input list directly. -/
def lookup_type (cpu : ℤ) (ram : ℚ) (types : List IType) :
    Except PyErr (List String) :=
  if cpu = 0 ∨ ram = 0 then .error .assertionError
  else
    .ok ((types.filter (fun t => decide (t.CPU = cpu ∧ t.RAM = ram))).map
      (fun t => t.type))

/-- The `while not found` loop of `aws_instance.get_correct_instance_size`
(lines 141-143).  Each iteration looks up the current `(min_cpu, min_ram)`
pair and then advances `min_ram` UNCONDITIONALLY — also when the lookup
just succeeded — so a match on the largest RAM rung still executes
`get_next_ram_size`, whose bounds assert fails.  The fuel only bounds the
number of iterations; it is always sufficient because `min_ram` moves to
a strictly larger element of `sorted_ram_size` every iteration. -/
def size_loop (types : List IType) (min_cpu : ℤ) (sorted_ram_size : List ℚ) :
    ℕ → ℚ → Except PyErr (List String)
  | 0, _ => .error .outOfFuel
  | fuel + 1, min_ram =>
    match lookup_type min_cpu min_ram types with
    | .error e => .error e
    | .ok found =>
      match get_next_ram_size sorted_ram_size min_ram with
      | .error e => .error e
      | .ok nxt =>
        match find_greater_than_or_equal sorted_ram_size nxt with
        | .error e => .error e
        | .ok new_ram =>
          if found = [] then size_loop types min_cpu sorted_ram_size fuel new_ram
          else .ok found

/-- `aws_instance.get_correct_instance_size(cpu, ram, types)`:
`assert cpu and ram`; take the CPU ceiling and the RAM ceiling over the
distinct catalog values; run the lookup loop.  (`int(cpu)` and
`float(ram)` are identities under the ℤ and ℚ modelling.) -/
def get_correct_instance_size (cpu : ℤ) (ram : ℚ) (types : List IType) :
    Except PyErr (List String) :=
  if cpu = 0 ∨ ram = 0 then .error .assertionError
  else
    match find_greater_than_or_equal
        (extract_list_from_instance_types (fun t => t.CPU) types) cpu with
    | .error e => .error e
    | .ok min_cpu =>
      match find_greater_than_or_equal
          (extract_list_from_instance_types (fun t => t.RAM) types) ram with
      | .error e => .error e
      | .ok min_ram =>
        size_loop types min_cpu
          (extract_list_from_instance_types (fun t => t.RAM) types)
          ((extract_list_from_instance_types (fun t => t.RAM) types).length + 1)
          min_ram

/-- Specification-side description of what the loop of
`get_correct_instance_size` computes on a suffix of the RAM ladder,
stated per the AMENDED claim C3: walk the rungs in ascending order and
return the first non-empty match, except that reaching the LAST rung —
matched or not — dies with an `AssertionError`, because the loop body
advances the RAM rung even after a successful lookup and the advance
asserts that a next rung exists.  (The `[]` case is unreachable: the walk
starts at an element of the ladder.) -/
def ladder_walk (types : List IType) (min_cpu : ℤ) :
    List ℚ → Except PyErr (List String)
  | [] => .error .outOfFuel
  | [r] =>
    (match lookup_type min_cpu r types with
     | .error e => .error e
     | .ok _ => .error .assertionError)
  | r :: r2 :: rest =>
    (match lookup_type min_cpu r types with
     | .error e => .error e
     | .ok found =>
       if found = [] then ladder_walk types min_cpu (r2 :: rest)
       else .ok found)

/-! ### aws_pricing.py

`get_price(instance, os, pricing_model)` performs memoized AWS API calls;
it is modelled by a parameter
`priceOf : String → String → String → Option ℚ` with `none` standing for
the Python `None` and `some 0` for the `0.0` that `get_price` returns on
a "no data" response or a caught client error.  Both are classified as
unavailable by `get_least_expensive_option`. -/

/-- `Counter[k] += 1` on a tally function. -/
def tally_add (t : String → ℕ) (k : String) : String → ℕ :=
  fun j => if j = k then t j + 1 else t j

/-- Python `dict` assignment `prices[instance] = price` on an association
list kept in insertion order: replace the value at an existing key in
place, append a fresh key at the end. -/
def dictUpsert (k : String) (v : ℚ) : List (String × ℚ) → List (String × ℚ)
  | [] => [(k, v)]
  | (k0, v0) :: rest =>
    if k0 = k then (k0, v) :: rest else (k0, v0) :: dictUpsert k v rest

/-- One iteration of the `for instance in instances` loop of
`get_least_expensive_option` (lines 161-167): an unavailable price
(`None` or `0.0`) appends to `invalid_instances` and bumps the shared
tally; an available one is stored in the `prices` dict. -/
def price_step (f : String → Option ℚ)
    (acc : List (String × ℚ) × List String × (String → ℕ)) (inst : String) :
    List (String × ℚ) × List String × (String → ℕ) :=
  match f inst with
  | none => (acc.1, acc.2.1 ++ [inst], tally_add acc.2.2 inst)
  | some p =>
    if p = 0 then (acc.1, acc.2.1 ++ [inst], tally_add acc.2.2 inst)
    else (dictUpsert inst p acc.1, acc.2.1, acc.2.2)

/-- Stable insertion into a list sorted by an integer key: an incoming
element goes BEFORE the first element whose key is not smaller. -/
def insertSortedByKey {α : Type} (key : α → ℤ) (x : α) : List α → List α
  | [] => [x]
  | y :: ys =>
    if key x ≤ key y then x :: y :: ys else y :: insertSortedByKey key x ys

/-- Python `sorted(l, key=...)` for the integer keys used at
`aws_pricing.py:169`: a stable sort by key.  Insertion sort is stable
like Python Timsort — an earlier element with an equal key stays ahead —
so on equal inputs both produce the same list. -/
def insertionSortByKey {α : Type} (key : α → ℤ) : List α → List α
  | [] => []
  | x :: xs => insertSortedByKey key x (insertionSortByKey key xs)

/-- `aws_pricing.get_least_expensive_option(instances, os, pricing_model,
invalid_instance_types_count)`: guard the degenerate inputs, price every
candidate, then sort the available ones by `int(price)` — note the
truncation — and return the head with its truncated price.  Returns the
`(type, cost)` pair, the `invalid_instances` list, and the updated
tally. -/
def get_least_expensive_option (priceOf : String → String → String → Option ℚ)
    (instances : List String) (os : String) (pricing_model : String)
    (tally : String → ℕ) :
    (Option String × Option ℤ) × List String × (String → ℕ) :=
  if instances = [] then ((none, none), [], tally)
  else if os = "" then ((none, none), [], tally)
  else
    let res := instances.foldl (price_step (fun i => priceOf i os pricing_model))
      ([], [], tally)
    let sorted_prices := insertionSortByKey (fun kv => pyTrunc kv.2) res.1
    match sorted_prices with
    | [] => ((none, none), res.2.1, res.2.2)
    | kv :: _ => ((some kv.1, some (pyTrunc kv.2)), res.2.1, res.2.2)

/-- The `for disk in disks: if disk['VM'] == vm: mbytes = int(...)` loop
of `aws_pricing.get_three_year_storage_cost` (lines 192-195): each
matching record OVERWRITES `mbytes`; a parse failure raises
`ValueError`. -/
def diskMBytes (vm : String) (disks : List Disk) : Except PyErr ℤ :=
  disks.foldlM
    (fun acc d =>
      if d.VM = vm then pyIntOfString (stripCommas d.Capacity) else .ok acc)
    0

/-- `aws_pricing.get_three_year_storage_cost(host, disks)` with the
memoized AWS storage unit price passed in as `price_per_gb_month`.
`assert host and disks`: `host` is a non-empty dict on every call site,
so only the emptiness of `disks` can fire the assert. -/
def get_three_year_storage_cost (host : ProcHost) (disks : List Disk)
    (price_per_gb_month : ℚ) : Except PyErr StorageInfo :=
  if disks = [] then .error .assertionError
  else
    match diskMBytes host.VM disks with
    | .error e => .error e
    | .ok mbytes =>
      let gbytes : ℚ := (mbytes : ℚ) / 1000
      let monthly_cost := round2 (price_per_gb_month * gbytes)
      let yearly_cost := monthly_cost * 12
      let three_year_cost := round2 (yearly_cost * 3)
      .ok { Storage := gbytes, StorageCost := three_year_cost }

/-- `aws_pricing.get_total_cost(host)`: a `None` cost contributes `0.0`,
and the total is the sum formatted to two decimals.  The two keys always
exist on the record `find_aws_instance` builds, so their values are
passed here directly. -/
def get_total_cost (instanceCost storageCost : Option ℚ) : ℚ :=
  round2 (instanceCost.getD 0 + storageCost.getD 0)

/-! ### aws_instance.find_aws_instance and the main pipeline -/

/-- `aws_instance.find_aws_instance(host, disks, types)` (which
`process_host` merely forwards to): resolve the instance size, price the
candidates under the three pricing models threading one fresh local
`Counter` through the calls, merge the 3-year-reserved result into the
host record, append storage cost and total.  The local counter and the
`all_invalid_instances` list are built and then dropped: they are not
part of the returned record. -/
def find_aws_instance (host : ProcHost) (disks : List Disk)
    (types : List IType) (priceOf : String → String → String → Option ℚ)
    (storage_unit_price : ℚ) : Except PyErr (Option HostRecord) :=
  match get_correct_instance_size host.CPUs host.RAM types with
  | .error e => .error e
  | .ok instances =>
    if instances = [] then .ok none
    else
      let t0 : String → ℕ := fun _ => 0
      let r1 := get_least_expensive_option priceOf instances host.OS "onDemand" t0
      let r2 := get_least_expensive_option priceOf instances host.OS "1-year Reserved" r1.2.2
      let r3 := get_least_expensive_option priceOf instances host.OS "3-year Reserved" r2.2.2
      match get_three_year_storage_cost host disks storage_unit_price with
      | .error e => .error e
      | .ok st =>
        let total := get_total_cost (r3.1.2.map (fun z => (z : ℚ)))
          (some st.StorageCost)
        .ok (some {
          VM := host.VM, OS := host.OS, CPUs := host.CPUs, RAM := host.RAM,
          InstanceType := r3.1.1, InstanceCost := r3.1.2,
          Storage := st.Storage, StorageCost := st.StorageCost, Total := total,
          onDemandDetail := r1.1, oneYearDetail := r2.1, threeYearDetail := r3.1 })

/-- The value of the LOCAL `invalid_instance_types_count` Counter created
inside `find_aws_instance` (aws_instance.py:207) after the three pricing
calls have threaded through it — the tally the worker actually
accumulates and then discards. -/
def worker_tally (host : ProcHost) (types : List IType)
    (priceOf : String → String → String → Option ℚ) : String → ℕ :=
  match get_correct_instance_size host.CPUs host.RAM types with
  | .error _ => fun _ => 0
  | .ok instances =>
    if instances = [] then fun _ => 0
    else
      let t0 : String → ℕ := fun _ => 0
      let r1 := get_least_expensive_option priceOf instances host.OS "onDemand" t0
      let r2 := get_least_expensive_option priceOf instances host.OS "1-year Reserved" r1.2.2
      let r3 := get_least_expensive_option priceOf instances host.OS "3-year Reserved" r2.2.2
      r3.2.2

/-- The host-processing section of `main.main` (main.py:153-185): each
host is processed, a `None` result is skipped with a warning
(main.py:168), an exception is logged and the host skipped
(main.py:174-175).  The returned tally is the
`invalid_instance_types_count` Counter that `main` creates at
main.py:155 and reports at main.py:180-185: it is never handed to any
worker, so it stays at zero.  (Worker completion order is
non-deterministic in the thread pool; it does not affect the collected
set or the tally.) -/
def run_hosts (hosts : List ProcHost) (disks : List Disk)
    (types : List IType) (priceOf : String → String → String → Option ℚ)
    (storage_unit_price : ℚ) : List HostRecord × (String → ℕ) :=
  (hosts.foldl
    (fun acc h =>
      match find_aws_instance h disks types priceOf storage_unit_price with
      | .ok (some r) => acc ++ [r]
      | .ok none => acc
      | .error _ => acc)
    [],
   fun _ => 0)

/-- The record-count gate of `main.main` (main.py:128-131): after loading,
an empty host list OR an empty disk list aborts the whole run with exit
code 1, before any host is processed. -/
def main_after_load (hosts : List ProcHost) (disks : List Disk)
    (types : List IType) (priceOf : String → String → String → Option ℚ)
    (storage_unit_price : ℚ) : Except ℕ (List HostRecord × (String → ℕ)) :=
  if hosts = [] ∨ disks = [] then .error 1
  else .ok (run_hosts hosts disks types priceOf storage_unit_price)

/-! ### data_processing.py -/

/-- Python `in` on strings: `needle` occurs contiguously in `hay`. -/
def charsStartWith : List Char → List Char → Bool
  | [], _ => true
  | _ :: _, [] => false
  | a :: as_, b :: bs => a = b && charsStartWith as_ bs

/-- Substring containment on character lists. -/
def containsSub (needle : List Char) : List Char → Bool
  | [] => charsStartWith needle []
  | c :: rest => charsStartWith needle (c :: rest) || containsSub needle rest

/-- Python `str.lower()`. -/
def pyLower (s : String) : String := String.mk (s.data.map Char.toLower)

/-- Python `str.strip()`: drop leading and trailing whitespace. -/
def pyStrip (s : String) : String :=
  String.mk (((s.data.dropWhile Char.isWhitespace).reverse.dropWhile
    Char.isWhitespace).reverse)

/-- `data_processing.get_csv_column_title(title_row, *titles)`:
`assert title_row and titles`; for each candidate title in order, return
the first column whose header contains it (case-insensitive, header
stripped); `ValueError` when nothing matches. -/
def get_csv_column_title (title_row : List String) (titles : List String) :
    Except PyErr ℕ :=
  if title_row = [] ∨ titles = [] then .error .assertionError
  else
    match titles.findSome?
        (fun t => title_row.findIdx?
          (fun v => containsSub (pyLower t).data (pyStrip (pyLower v)).data)) with
    | some c => .ok c
    | none => .error .valueError

/-- Python `row[i]`: `IndexError` out of range. -/
def getCell (row : List String) (i : ℕ) : Except PyErr String :=
  match row[i]? with
  | some v => .ok v
  | none => .error .indexError

/-- The `for row in csv_reader: ... .append(f row)` pattern of the two
loaders: process the rows in order, stopping at the first raised
exception. -/
def exceptMap {α β : Type} (f : α → Except PyErr β) :
    List α → Except PyErr (List β)
  | [] => .ok []
  | x :: xs =>
    match f x with
    | .error e => .error e
    | .ok y =>
      match exceptMap f xs with
      | .error e => .error e
      | .ok ys => .ok (y :: ys)

/-- One data row of the vDisk table
(`data_processing.load_storage_records_from_csv`, lines 148-151). -/
def load_storage_row (capacity_column vm_column : ℕ) (row : List String) :
    Except PyErr Disk :=
  match getCell row capacity_column with
  | .error e => .error e
  | .ok cap =>
    match getCell row vm_column with
    | .error e => .error e
    | .ok vm => .ok { Capacity := cap, VM := vm }

/-- `data_processing.load_storage_records_from_csv` over already-parsed
CSV rows (the file I/O and the `csv` reader are outside the model): the
header row drives column discovery; a `ValueError` there is caught,
logged, and turned into an EMPTY record list (lines 137-144); any other
rows become disk records. -/
def load_storage_records_from_csv (rows : List (List String)) :
    Except PyErr (List Disk) :=
  match rows with
  | [] => .ok []
  | title_row :: data_rows =>
    match get_csv_column_title title_row ["Capacity MB", "Capacity MiB", "Capacity"] with
    | .error .valueError => .ok []
    | .error e => .error e
    | .ok capacity_column =>
      match get_csv_column_title title_row ["VM"] with
      | .error .valueError => .ok []
      | .error e => .error e
      | .ok vm_column =>
        exceptMap (load_storage_row capacity_column vm_column) data_rows

/-- One data row of the vCPU table
(`data_processing.load_host_records_from_csv`, lines 95-101): the CPU
count is parsed and floored to `min_cpu`; the RAM string is kept raw. -/
def load_host_row (cpu_count_column ram_column vm_column os_column : ℕ)
    (min_cpu : ℤ) (row : List String) : Except PyErr CsvHost :=
  match getCell row cpu_count_column with
  | .error e => .error e
  | .ok cpuStr =>
    match pyIntOfString cpuStr with
    | .error e => .error e
    | .ok cpuRaw =>
      match getCell row ram_column with
      | .error e => .error e
      | .ok ramStr =>
        match getCell row vm_column with
        | .error e => .error e
        | .ok vmStr =>
          match getCell row os_column with
          | .error e => .error e
          | .ok osStr =>
            .ok { CPUs := if cpuRaw < min_cpu then min_cpu else cpuRaw,
                  RAM := ramStr, VM := vmStr, OS := osStr }

/-- `data_processing.load_host_records_from_csv` over already-parsed CSV
rows: here a column-discovery `ValueError` is NOT caught — it propagates
(and `main` then aborts the run). -/
def load_host_records_from_csv (rows : List (List String)) (min_cpu : ℤ) :
    Except PyErr (List CsvHost) :=
  match rows with
  | [] => .ok []
  | title_row :: data_rows =>
    match get_csv_column_title title_row ["CPUs"] with
    | .error e => .error e
    | .ok cpu_count_column =>
      match get_csv_column_title title_row ["Max"] with
      | .error e => .error e
      | .ok ram_column =>
        match get_csv_column_title title_row ["VM"] with
        | .error e => .error e
        | .ok vm_column =>
          match get_csv_column_title title_row
              ["OS according to the configuration file"] with
          | .error e => .error e
          | .ok os_column =>
            exceptMap (load_host_row cpu_count_column ram_column vm_column
              os_column min_cpu) data_rows

/-- `data_processing.set_minimum_ram_size_for_instance(ram, min_ram)`:
`gig_ram = float(round(int(ram)/1000))`, floored to `min_ram`. -/
def set_minimum_ram_size_for_instance (ram : String) (min_ram : ℚ) :
    Except PyErr ℚ :=
  match pyIntOfString ram with
  | .error e => .error e
  | .ok n =>
    let gig_ram : ℚ := ((pyRound ((n : ℚ) / 1000) : ℤ) : ℚ)
    .ok (if gig_ram > min_ram then gig_ram else min_ram)

/-- RAM processing for one host (`data_processing.process_host_ram`,
line 117): strip commas, normalize MB to GB, floor to `min_ram`. -/
def process_one_host (min_ram : ℚ) (h : CsvHost) : Except PyErr ProcHost :=
  match set_minimum_ram_size_for_instance (stripCommas h.RAM) min_ram with
  | .error e => .error e
  | .ok ram => .ok { CPUs := h.CPUs, RAM := ram, VM := h.VM, OS := h.OS }

/-- `data_processing.process_host_ram(hosts, min_ram)`. -/
def process_host_ram (hosts : List CsvHost) (min_ram : ℚ) :
    Except PyErr (List ProcHost) :=
  exceptMap (process_one_host min_ram) hosts

/-- Concrete price table used for claim C2: candidate "a" costs 1.9 and
candidate "b" costs 1.5 — both available, equal after `int()` truncation. -/
def c2PriceTable : String → String → String → Option ℚ :=
  fun i _ _ =>
    if i = "a" then some (19/10) else if i = "b" then some (3/2) else none

/-! ### Generic list lemmas -/

theorem takeWhile_length_not {α : Type} (p : α → Bool) (l : List α) :
    ∀ x, l[(l.takeWhile p).length]? = some x → p x = false := by
  induction l with
  | nil => intro x hx; simp at hx
  | cons y ys ih =>
    intro x hx
    by_cases hp : p y
    · rw [List.takeWhile_cons_of_pos hp] at hx
      simp only [List.length_cons, List.getElem?_cons_succ] at hx
      exact ih x hx
    · rw [List.takeWhile_cons_of_neg (by simpa using hp)] at hx
      simp only [List.length_nil, List.getElem?_cons_zero, Option.some.injEq] at hx
      subst hx
      simpa using hp

theorem fgte_ok_le {α : Type} [LinearOrder α] [Zero α] {a : List α} {key v : α}
    (h : find_greater_than_or_equal a key = .ok v) : key ≤ v := by
  unfold find_greater_than_or_equal at h
  by_cases hg : a = [] ∨ key = 0
  · rw [if_pos hg] at h; cases h
  · rw [if_neg hg] at h
    split at h
    · rename_i hlt
      injection h with h
      subst h
      have hsome : a[(a.takeWhile (fun x => decide (x < key))).length]? =
          some (a.get ⟨bisect_left a key, hlt⟩) := by
        rw [List.getElem?_eq_getElem (by simpa [bisect_left] using hlt)]
        simp [bisect_left]
      have := takeWhile_length_not (fun x => decide (x < key)) a _ hsome
      simpa using this
    · cases h

theorem fgte_ok_mem {α : Type} [LinearOrder α] [Zero α] {a : List α} {key v : α}
    (h : find_greater_than_or_equal a key = .ok v) : v ∈ a := by
  unfold find_greater_than_or_equal at h
  by_cases hg : a = [] ∨ key = 0
  · rw [if_pos hg] at h; cases h
  · rw [if_neg hg] at h
    split at h
    · injection h with h
      subst h
      exact List.get_mem _ _ _
    · cases h

theorem fgte_ok_spec {α : Type} [LinearOrder α] [Zero α] {a : List α} {key v : α}
    (h : find_greater_than_or_equal a key = .ok v) :
    ∃ hlt : bisect_left a key < a.length, v = a.get ⟨bisect_left a key, hlt⟩ := by
  unfold find_greater_than_or_equal at h
  by_cases hg : a = [] ∨ key = 0
  · rw [if_pos hg] at h; cases h
  · rw [if_neg hg] at h
    split at h
    · rename_i hlt
      injection h with h
      exact ⟨hlt, h.symm⟩
    · cases h

theorem mem_insertUnique {α : Type} [LinearOrder α] (x a : α) (l : List α) :
    a ∈ insertUnique x l ↔ a = x ∨ a ∈ l := by
  induction l with
  | nil => simp [insertUnique]
  | cons y ys ih =>
    unfold insertUnique
    by_cases h1 : x < y
    · rw [if_pos h1]
      simp only [List.mem_cons]
    · rw [if_neg h1]
      by_cases h2 : x = y
      · subst h2
        rw [if_pos rfl]
        simp only [List.mem_cons]
        tauto
      · rw [if_neg h2]
        simp only [List.mem_cons, ih]
        tauto

theorem pairwise_insertUnique {α : Type} [LinearOrder α] (x : α) (l : List α)
    (h : l.Pairwise (· < ·)) : (insertUnique x l).Pairwise (· < ·) := by
  induction l with
  | nil => simp [insertUnique]
  | cons y ys ih =>
    rw [List.pairwise_cons] at h
    obtain ⟨hy, hys⟩ := h
    unfold insertUnique
    by_cases h1 : x < y
    · rw [if_pos h1]
      refine List.Pairwise.cons ?_ (List.Pairwise.cons hy hys)
      intro b hb
      rcases List.mem_cons.mp hb with hb1 | hb2
      · exact hb1 ▸ h1
      · exact lt_trans h1 (hy b hb2)
    · rw [if_neg h1]
      by_cases h2 : x = y
      · rw [if_pos h2]
        exact List.Pairwise.cons hy hys
      · rw [if_neg h2]
        have hyx : y < x := lt_of_le_of_ne (le_of_not_lt h1) (Ne.symm h2)
        refine List.Pairwise.cons ?_ (ih hys)
        intro b hb
        rcases (mem_insertUnique x b ys).mp hb with hb1 | hb2
        · exact hb1 ▸ hyx
        · exact hy b hb2

theorem sortedDistinct_cons {α : Type} [LinearOrder α] (x : α) (l : List α) :
    sortedDistinct (x :: l) = insertUnique x (sortedDistinct l) := rfl

theorem sortedDistinct_pairwise {α : Type} [LinearOrder α] (l : List α) :
    (sortedDistinct l).Pairwise (· < ·) := by
  induction l with
  | nil => simp [sortedDistinct]
  | cons x xs ih =>
    rw [sortedDistinct_cons]
    exact pairwise_insertUnique x _ ih

theorem mem_sortedDistinct {α : Type} [LinearOrder α] (a : α) (l : List α) :
    a ∈ sortedDistinct l ↔ a ∈ l := by
  induction l with
  | nil => simp [sortedDistinct]
  | cons x xs ih =>
    rw [sortedDistinct_cons, mem_insertUnique]
    simp [ih]

theorem pyIndex_some {α : Type} [DecidableEq α] {x : α} :
    ∀ {l : List α} {i : ℕ}, pyIndex x l = some i →
      ∃ h : i < l.length, l.get ⟨i, h⟩ = x := by
  intro l
  induction l with
  | nil => intro i h; simp [pyIndex] at h
  | cons y ys ih =>
    intro i h
    unfold pyIndex at h
    by_cases hy : y = x
    · rw [if_pos hy] at h
      injection h with h
      subst h
      exact ⟨by simp, hy⟩
    · rw [if_neg hy] at h
      cases hp : pyIndex x ys with
      | none => rw [hp] at h; simp at h
      | some j =>
        rw [hp] at h
        simp only [Option.map_some', Option.some.injEq] at h
        subst h
        obtain ⟨hj, hx⟩ := ih hp
        exact ⟨by simpa using Nat.succ_lt_succ hj, by simpa using hx⟩

theorem pyIndex_get {α : Type} [LinearOrder α] (L : List α)
    (hL : L.Pairwise (· < ·)) :
    ∀ (k : ℕ) (hk : k < L.length), pyIndex (L.get ⟨k, hk⟩) L = some k := by
  induction L with
  | nil => intro k hk; simp at hk
  | cons y ys ih =>
    rw [List.pairwise_cons] at hL
    obtain ⟨hy, hys⟩ := hL
    intro k hk
    cases k with
    | zero =>
      unfold pyIndex
      simp
    | succ k =>
      have hget : (y :: ys).get ⟨k + 1, hk⟩ = ys.get ⟨k, by simpa using hk⟩ := rfl
      unfold pyIndex
      have hne : ¬ y = (y :: ys).get ⟨k + 1, hk⟩ := by
        rw [hget]
        exact ne_of_lt (hy _ (List.get_mem _ _ _))
      rw [if_neg hne, hget, ih hys k _]
      rfl

theorem takeWhile_lt_get {α : Type} [LinearOrder α] (L : List α)
    (hL : L.Pairwise (· < ·)) :
    ∀ (k : ℕ) (hk : k < L.length),
      L.takeWhile (fun x => decide (x < L.get ⟨k, hk⟩)) = L.take k := by
  induction L with
  | nil => intro k hk; simp at hk
  | cons y ys ih =>
    rw [List.pairwise_cons] at hL
    obtain ⟨hy, hys⟩ := hL
    intro k hk
    cases k with
    | zero =>
      have : (y :: ys).get ⟨0, hk⟩ = y := rfl
      rw [this]
      rw [List.takeWhile_cons_of_neg (by simp)]
      rfl
    | succ k =>
      have hget : (y :: ys).get ⟨k + 1, hk⟩ = ys.get ⟨k, by simpa using hk⟩ := rfl
      rw [hget]
      rw [List.takeWhile_cons_of_pos (by simpa using hy _ (List.get_mem _ _ _))]
      rw [List.take_succ_cons, ih hys k _]

theorem bisect_left_get {α : Type} [LinearOrder α] (L : List α)
    (hL : L.Pairwise (· < ·)) (k : ℕ) (hk : k < L.length) :
    bisect_left L (L.get ⟨k, hk⟩) = k := by
  unfold bisect_left
  rw [takeWhile_lt_get L hL k hk, List.length_take]
  omega

theorem fgte_get_self {α : Type} [LinearOrder α] [Zero α] (L : List α)
    (hL : L.Pairwise (· < ·)) (k : ℕ) (hk : k < L.length)
    (hne : L.get ⟨k, hk⟩ ≠ 0) :
    find_greater_than_or_equal L (L.get ⟨k, hk⟩) = .ok (L.get ⟨k, hk⟩) := by
  have hnil : L ≠ [] := by
    intro h
    subst h
    simp at hk
  unfold find_greater_than_or_equal
  rw [if_neg (by push_neg; exact ⟨hnil, hne⟩)]
  have hb := bisect_left_get L hL k hk
  simp only [hb, hk, dite_true]

/-! ### Lemmas about the sizing search -/

theorem lookup_type_ok_mem {cpu : ℤ} {ram : ℚ} {types : List IType}
    {l : List String} (h : lookup_type cpu ram types = .ok l) :
    ∀ i ∈ l, ∃ t ∈ types, t.type = i ∧ t.CPU = cpu ∧ t.RAM = ram := by
  unfold lookup_type at h
  by_cases hg : cpu = 0 ∨ ram = 0
  · rw [if_pos hg] at h; cases h
  · rw [if_neg hg] at h
    injection h with h
    subst h
    intro i hi
    rw [List.mem_map] at hi
    obtain ⟨t, ht, rfl⟩ := hi
    rw [List.mem_filter] at ht
    obtain ⟨ht1, ht2⟩ := ht
    simp only [decide_eq_true_eq] at ht2
    exact ⟨t, ht1, rfl, ht2.1, ht2.2⟩

theorem get_next_ok_gt {L : List ℚ} (hL : L.Pairwise (· < ·)) {r v : ℚ}
    (h : get_next_ram_size L r = .ok v) : r < v := by
  unfold get_next_ram_size at h
  by_cases hg : r = 0 ∨ L = []
  · rw [if_pos hg] at h; cases h
  · rw [if_neg hg] at h
    split at h
    · cases h
    · rename_i idx hp
      split at h
      · rename_i hlt
        injection h with h
        subst h
        obtain ⟨hi, hr⟩ := pyIndex_some hp
        have := (List.pairwise_iff_get.mp hL) ⟨idx, hi⟩ ⟨idx + 1, hlt⟩
          (by simp [Fin.mk_lt_mk])
        rw [hr] at this
        exact this
      · cases h

theorem size_loop_ok_lookup (types : List IType) (mc : ℤ) (L : List ℚ)
    (hL : L.Pairwise (· < ·)) :
    ∀ (fuel : ℕ) (r0 : ℚ) (l : List String),
      size_loop types mc L fuel r0 = .ok l →
      ∃ r : ℚ, r0 ≤ r ∧ lookup_type mc r types = .ok l := by
  intro fuel
  induction fuel with
  | zero =>
    intro r0 l h
    simp [size_loop] at h
  | succ fuel ih =>
    intro r0 l h
    rw [size_loop] at h
    split at h
    · cases h
    · rename_i found hlk
      split at h
      · cases h
      · rename_i nxt hnx
        split at h
        · cases h
        · rename_i new_ram hfg
          by_cases hf : found = []
          · rw [if_pos hf] at h
            obtain ⟨r, hr1, hr2⟩ := ih new_ram l h
            refine ⟨r, ?_, hr2⟩
            have h1 : r0 < nxt := get_next_ok_gt hL hnx
            have h2 : nxt ≤ new_ram := fgte_ok_le hfg
            exact le_trans (le_of_lt h1) (le_trans h2 hr1)
          · rw [if_neg hf] at h
            injection h with h
            subst h
            exact ⟨r0, le_refl r0, hlk⟩

theorem size_loop_eq_ladder_walk (types : List IType) (mc : ℤ) (L : List ℚ)
    (hL : L.Pairwise (· < ·)) (hpos : ∀ x ∈ L, 0 < x) :
    ∀ (fuel k : ℕ) (hk : k < L.length), L.length - k ≤ fuel →
      size_loop types mc L fuel (L.get ⟨k, hk⟩) = ladder_walk types mc (L.drop k) := by
  intro fuel
  induction fuel with
  | zero =>
    intro k hk hf
    exact absurd hf (by omega)
  | succ fuel ih =>
    intro k hk hf
    have hnil : L ≠ [] := List.ne_nil_of_length_pos (by omega)
    have hr0 : 0 < L.get ⟨k, hk⟩ := hpos _ (List.get_mem _ _ _)
    have hcons : L.drop k = L.get ⟨k, hk⟩ :: L.drop (k + 1) := by
      rw [List.drop_eq_getElem_cons hk]
      rfl
    rw [size_loop, hcons]
    by_cases hk1 : k + 1 < L.length
    · have hcons2 : L.drop (k + 1) = L.get ⟨k + 1, hk1⟩ :: L.drop (k + 2) := by
        rw [List.drop_eq_getElem_cons hk1]
        rfl
      rw [hcons2]
      simp only [ladder_walk]
      cases hlk : lookup_type mc (L.get ⟨k, hk⟩) types with
      | error e => rfl
      | ok found =>
        have hnx : get_next_ram_size L (L.get ⟨k, hk⟩) =
            .ok (L.get ⟨k + 1, hk1⟩) := by
          unfold get_next_ram_size
          rw [if_neg (by push_neg; exact ⟨ne_of_gt hr0, hnil⟩)]
          rw [pyIndex_get L hL k hk]
          show (if h : k + 1 < L.length then Except.ok (L.get ⟨k + 1, h⟩)
            else Except.error PyErr.assertionError) = _
          rw [dif_pos hk1]
        have hfg : find_greater_than_or_equal L (L.get ⟨k + 1, hk1⟩) =
            .ok (L.get ⟨k + 1, hk1⟩) :=
          fgte_get_self L hL (k + 1) hk1
            (ne_of_gt (hpos _ (List.get_mem _ _ _)))
        simp only [hnx, hfg]
        by_cases hfound : found = []
        · rw [if_pos hfound, if_pos hfound, ← hcons2]
          exact ih (k + 1) hk1 (by omega)
        · rw [if_neg hfound, if_neg hfound]
    · have hlast : L.drop (k + 1) = [] := List.drop_eq_nil_of_le (by omega)
      rw [hlast]
      simp only [ladder_walk]
      cases hlk : lookup_type mc (L.get ⟨k, hk⟩) types with
      | error e => rfl
      | ok found =>
        have hnx : get_next_ram_size L (L.get ⟨k, hk⟩) =
            .error .assertionError := by
          unfold get_next_ram_size
          rw [if_neg (by push_neg; exact ⟨ne_of_gt hr0, hnil⟩)]
          rw [pyIndex_get L hL k hk]
          show (if h : k + 1 < L.length then Except.ok (L.get ⟨k + 1, h⟩)
            else Except.error PyErr.assertionError) = _
          rw [dif_neg hk1]
        simp only [hnx]

/-! ### Lemmas about the price dictionary and the stable sort -/

theorem mem_dictUpsert_or {k : String} {v : ℚ} {l : List (String × ℚ)}
    {kv : String × ℚ} (h : kv ∈ dictUpsert k v l) : kv = (k, v) ∨ kv ∈ l := by
  induction l with
  | nil => simpa [dictUpsert] using h
  | cons p ps ih =>
    obtain ⟨k0, v0⟩ := p
    unfold dictUpsert at h
    by_cases hk : k0 = k
    · rw [if_pos hk] at h
      rcases List.mem_cons.mp h with h1 | h2
      · left
        rw [h1, hk]
      · right
        exact List.mem_cons_of_mem _ h2
    · rw [if_neg hk] at h
      rcases List.mem_cons.mp h with h1 | h2
      · right
        exact h1 ▸ List.mem_cons_self _ _
      · rcases ih h2 with h3 | h4
        · exact Or.inl h3
        · exact Or.inr (List.mem_cons_of_mem _ h4)

theorem self_mem_dictUpsert (k : String) (v : ℚ) (l : List (String × ℚ)) :
    (k, v) ∈ dictUpsert k v l := by
  induction l with
  | nil => simp [dictUpsert]
  | cons p ps ih =>
    obtain ⟨k0, v0⟩ := p
    unfold dictUpsert
    by_cases hk : k0 = k
    · rw [if_pos hk, hk]
      exact List.mem_cons_self _ _
    · rw [if_neg hk]
      exact List.mem_cons_of_mem _ ih

theorem key_mem_dictUpsert {k0 : String} {w : ℚ} {l : List (String × ℚ)}
    (h : (k0, w) ∈ l) (k : String) (v : ℚ) :
    ∃ w2, (k0, w2) ∈ dictUpsert k v l := by
  by_cases hk : k0 = k
  · subst hk
    exact ⟨v, self_mem_dictUpsert k0 v l⟩
  · induction l with
    | nil => simp at h
    | cons p ps ih =>
      obtain ⟨k1, v1⟩ := p
      unfold dictUpsert
      by_cases hk1 : k1 = k
      · rw [if_pos hk1]
        rcases List.mem_cons.mp h with h1 | h2
        · exfalso
          have : k0 = k1 := by
            injection h1 with ha hb
          exact hk (this.trans hk1)
        · exact ⟨w, List.mem_cons_of_mem _ h2⟩
      · rw [if_neg hk1]
        rcases List.mem_cons.mp h with h1 | h2
        · exact ⟨w, h1 ▸ List.mem_cons_self _ _⟩
        · obtain ⟨w2, hw2⟩ := ih h2
          exact ⟨w2, List.mem_cons_of_mem _ hw2⟩

theorem price_fold_sound (f : String → Option ℚ) :
    ∀ (l : List String) (ps : List (String × ℚ)) (iv : List String)
      (t : String → ℕ) (kv : String × ℚ),
      kv ∈ (l.foldl (price_step f) (ps, iv, t)).1 →
      (f kv.1 = some kv.2 ∧ kv.2 ≠ 0 ∧ kv.1 ∈ l) ∨ kv ∈ ps := by
  intro l
  induction l with
  | nil =>
    intro ps iv t kv h
    right
    simpa using h
  | cons x xs ih =>
    intro ps iv t kv h
    rw [List.foldl_cons] at h
    cases hx : f x with
    | none =>
      simp only [price_step, hx] at h
      rcases ih _ _ _ _ h with ⟨h1, h2, h3⟩ | h4
      · exact Or.inl ⟨h1, h2, List.mem_cons_of_mem _ h3⟩
      · exact Or.inr h4
    | some p =>
      by_cases hp : p = 0
      · simp only [price_step, hx, if_pos hp] at h
        rcases ih _ _ _ _ h with ⟨h1, h2, h3⟩ | h4
        · exact Or.inl ⟨h1, h2, List.mem_cons_of_mem _ h3⟩
        · exact Or.inr h4
      · simp only [price_step, hx, if_neg hp] at h
        rcases ih _ _ _ _ h with ⟨h1, h2, h3⟩ | h4
        · exact Or.inl ⟨h1, h2, List.mem_cons_of_mem _ h3⟩
        · rcases mem_dictUpsert_or h4 with h5 | h6
          · subst h5
            exact Or.inl ⟨hx, hp, List.mem_cons_self _ _⟩
          · exact Or.inr h6

theorem price_fold_keeps (f : String → Option ℚ) :
    ∀ (l : List String) (ps : List (String × ℚ)) (iv : List String)
      (t : String → ℕ) (k : String) (w : ℚ),
      (k, w) ∈ ps → ∃ w2, (k, w2) ∈ (l.foldl (price_step f) (ps, iv, t)).1 := by
  intro l
  induction l with
  | nil =>
    intro ps iv t k w h
    exact ⟨w, by simpa using h⟩
  | cons x xs ih =>
    intro ps iv t k w h
    rw [List.foldl_cons]
    cases hx : f x with
    | none =>
      simp only [price_step, hx]
      exact ih _ _ _ k w h
    | some p =>
      by_cases hp : p = 0
      · simp only [price_step, hx, if_pos hp]
        exact ih _ _ _ k w h
      · simp only [price_step, hx, if_neg hp]
        obtain ⟨w2, hw2⟩ := key_mem_dictUpsert h x p
        exact ih _ _ _ k w2 hw2

theorem price_fold_present (f : String → Option ℚ) :
    ∀ (l : List String) (ps : List (String × ℚ)) (iv : List String)
      (t : String → ℕ) (i : String) (p : ℚ),
      i ∈ l → f i = some p → p ≠ 0 →
      ∃ w, (i, w) ∈ (l.foldl (price_step f) (ps, iv, t)).1 := by
  intro l
  induction l with
  | nil =>
    intro ps iv t i p h
    simp at h
  | cons x xs ih =>
    intro ps iv t i p hmem hf hp
    rw [List.foldl_cons]
    rcases List.mem_cons.mp hmem with h1 | h2
    · subst h1
      simp only [price_step, hf, if_neg hp]
      exact price_fold_keeps f xs _ _ _ i p (self_mem_dictUpsert i p ps)
    · cases hx : f x with
      | none =>
        simp only [price_step, hx]
        exact ih _ _ _ i p h2 hf hp
      | some q =>
        by_cases hq : q = 0
        · simp only [price_step, hx, if_pos hq]
          exact ih _ _ _ i p h2 hf hp
        · simp only [price_step, hx, if_neg hq]
          exact ih _ _ _ i p h2 hf hp

theorem price_fold_all_zero (f : String → Option ℚ) :
    ∀ (l : List String) (ps : List (String × ℚ)) (iv : List String)
      (t : String → ℕ), (∀ i ∈ l, f i = some 0) →
      (l.foldl (price_step f) (ps, iv, t)).1 = ps := by
  intro l
  induction l with
  | nil =>
    intro ps iv t _
    rfl
  | cons x xs ih =>
    intro ps iv t hall
    rw [List.foldl_cons]
    have hx : f x = some 0 := hall x (List.mem_cons_self _ _)
    simp only [price_step, hx, if_pos rfl]
    exact ih _ _ _ (fun i hi => hall i (List.mem_cons_of_mem _ hi))

theorem mem_insertSortedByKey {α : Type} (key : α → ℤ) (x a : α) (l : List α) :
    a ∈ insertSortedByKey key x l ↔ a = x ∨ a ∈ l := by
  induction l with
  | nil => simp [insertSortedByKey]
  | cons y ys ih =>
    unfold insertSortedByKey
    by_cases h1 : key x ≤ key y
    · rw [if_pos h1]
      simp only [List.mem_cons]
    · rw [if_neg h1]
      simp only [List.mem_cons, ih]
      tauto

theorem mem_insertionSortByKey {α : Type} (key : α → ℤ) (a : α) (l : List α) :
    a ∈ insertionSortByKey key l ↔ a ∈ l := by
  induction l with
  | nil => simp [insertionSortByKey]
  | cons x xs ih =>
    unfold insertionSortByKey
    rw [mem_insertSortedByKey, ih]
    simp [List.mem_cons]

theorem pairwise_insertSortedByKey {α : Type} (key : α → ℤ) (x : α)
    (l : List α) (h : l.Pairwise (fun a b => key a ≤ key b)) :
    (insertSortedByKey key x l).Pairwise (fun a b => key a ≤ key b) := by
  induction l with
  | nil => simp [insertSortedByKey]
  | cons y ys ih =>
    rw [List.pairwise_cons] at h
    obtain ⟨hy, hys⟩ := h
    unfold insertSortedByKey
    by_cases h1 : key x ≤ key y
    · rw [if_pos h1]
      refine List.Pairwise.cons ?_ (List.Pairwise.cons hy hys)
      intro b hb
      rcases List.mem_cons.mp hb with hb1 | hb2
      · exact hb1 ▸ h1
      · exact le_trans h1 (hy b hb2)
    · rw [if_neg h1]
      refine List.Pairwise.cons ?_ (ih hys)
      intro b hb
      rcases (mem_insertSortedByKey key x b ys).mp hb with hb1 | hb2
      · exact hb1 ▸ le_of_not_le h1
      · exact hy b hb2

theorem pairwise_insertionSortByKey {α : Type} (key : α → ℤ) (l : List α) :
    (insertionSortByKey key l).Pairwise (fun a b => key a ≤ key b) := by
  induction l with
  | nil => simp [insertionSortByKey]
  | cons x xs ih => exact pairwise_insertSortedByKey key x _ ih

theorem sort_head_min {α : Type} (key : α → ℤ) (l : List α) (y : α)
    (ys : List α) (h : insertionSortByKey key l = y :: ys) :
    ∀ a ∈ l, key y ≤ key a := by
  intro a ha
  have hmem : a ∈ insertionSortByKey key l :=
    (mem_insertionSortByKey key a l).mpr ha
  rw [h] at hmem
  have hp := pairwise_insertionSortByKey key l
  rw [h, List.pairwise_cons] at hp
  rcases List.mem_cons.mp hmem with h1 | h2
  · exact h1 ▸ le_refl _
  · exact hp.1 a h2

theorem insertionSort_ne_nil {α : Type} (key : α → ℤ) {l : List α}
    (h : l ≠ []) : insertionSortByKey key l ≠ [] := by
  intro hnil
  cases l with
  | nil => exact h rfl
  | cons x xs =>
    have hx : x ∈ insertionSortByKey key (x :: xs) :=
      (mem_insertionSortByKey key x _).mpr (List.mem_cons_self _ _)
    rw [hnil] at hx
    simp at hx

/-! ### Arithmetic lemmas about the rounding helpers -/

theorem pyRound_intCast (n : ℤ) : pyRound (n : ℚ) = n := by
  unfold pyRound
  rw [Int.floor_intCast]
  norm_num

theorem round2_zero : round2 0 = 0 := by
  unfold round2 pyRound
  norm_num

theorem round2_round2 (q : ℚ) : round2 (round2 q) = round2 q := by
  unfold round2
  rw [div_mul_cancel₀ _ (by norm_num : (100 : ℚ) ≠ 0), pyRound_intCast]

/-! ### Lemmas about storage cost, pricing selection, and the loaders -/

theorem diskMBytes_no_match (vm : String) :
    ∀ (disks : List Disk) (acc : ℤ), (∀ d ∈ disks, d.VM ≠ vm) →
      disks.foldlM
        (fun acc d =>
          if d.VM = vm then pyIntOfString (stripCommas d.Capacity) else .ok acc)
        acc = Except.ok acc := by
  intro disks
  induction disks with
  | nil => intro acc _; rfl
  | cons d ds ih =>
    intro acc hall
    rw [List.foldlM_cons]
    rw [if_neg (hall d (List.mem_cons_self _ _))]
    show (Except.ok acc >>= _) = _
    simp only [bind, Except.bind]
    exact ih acc (fun x hx => hall x (List.mem_cons_of_mem _ hx))

theorem get_three_year_storage_cost_ok {host : ProcHost} {disks : List Disk}
    {p : ℚ} {st : StorageInfo}
    (h : get_three_year_storage_cost host disks p = .ok st) :
    ∃ mb : ℤ, diskMBytes host.VM disks = .ok mb ∧
      st.Storage = (mb : ℚ) / 1000 ∧
      st.StorageCost = round2 (round2 (p * ((mb : ℚ) / 1000)) * 12 * 3) := by
  unfold get_three_year_storage_cost at h
  by_cases hd : disks = []
  · rw [if_pos hd] at h
    cases h
  · rw [if_neg hd] at h
    split at h
    · cases h
    · rename_i mb hmb
      injection h with h
      subst h
      exact ⟨mb, hmb, rfl, rfl⟩

theorem gleo_all_unavailable (priceOf : String → String → String → Option ℚ)
    (instances : List String) (os model : String) (t : String → ℕ)
    (hi : instances ≠ []) (hos : os ≠ "")
    (hall : ∀ i ∈ instances, priceOf i os model = some 0) :
    (get_least_expensive_option priceOf instances os model t).1 = (none, none) := by
  simp only [get_least_expensive_option]
  rw [if_neg hi, if_neg hos]
  rw [price_fold_all_zero (fun i => priceOf i os model) instances [] [] t hall]
  rfl

theorem gleo_min (priceOf : String → String → String → Option ℚ)
    (instances : List String) (os model : String) (t : String → ℕ)
    (hos : os ≠ "") (i0 : String) (p0 : ℚ) (h0m : i0 ∈ instances)
    (h0p : priceOf i0 os model = some p0) (h0z : p0 ≠ 0) :
    ∃ sel psel,
      (get_least_expensive_option priceOf instances os model t).1 =
        (some sel, some (pyTrunc psel)) ∧
      sel ∈ instances ∧ priceOf sel os model = some psel ∧ psel ≠ 0 ∧
      ∀ j q, j ∈ instances → priceOf j os model = some q → q ≠ 0 →
        pyTrunc psel ≤ pyTrunc q := by
  have hi : instances ≠ [] := List.ne_nil_of_mem h0m
  obtain ⟨w, hw⟩ := price_fold_present (fun i => priceOf i os model)
    instances [] [] t i0 p0 h0m h0p h0z
  have hne : (instances.foldl (price_step (fun i => priceOf i os model))
      ([], [], t)).1 ≠ [] := by
    intro hnil
    rw [hnil] at hw
    simp at hw
  cases hs : insertionSortByKey (fun kv => pyTrunc kv.2)
      (instances.foldl (price_step (fun i => priceOf i os model))
        ([], [], t)).1 with
  | nil => exact absurd hs (insertionSort_ne_nil _ hne)
  | cons kv tl =>
    have hkvmem : kv ∈ (instances.foldl
        (price_step (fun i => priceOf i os model)) ([], [], t)).1 := by
      have : kv ∈ insertionSortByKey (fun kv => pyTrunc kv.2)
          (instances.foldl (price_step (fun i => priceOf i os model))
            ([], [], t)).1 := by
        rw [hs]
        exact List.mem_cons_self _ _
      exact (mem_insertionSortByKey _ _ _).mp this
    have hkv := price_fold_sound (fun i => priceOf i os model)
      instances [] [] t kv hkvmem
    rcases hkv with ⟨hkv1, hkv2, hkv3⟩ | hkv4
    · refine ⟨kv.1, kv.2, ?_, hkv3, hkv1, hkv2, ?_⟩
      · simp only [get_least_expensive_option]
        rw [if_neg hi, if_neg hos]
        simp only [hs]
      · intro j q hj hfj hq
        obtain ⟨w2, hw2⟩ := price_fold_present (fun i => priceOf i os model)
          instances [] [] t j q hj hfj hq
        have hjw := price_fold_sound (fun i => priceOf i os model)
          instances [] [] t (j, w2) hw2
        rcases hjw with ⟨hjw1, _, _⟩ | hjw4
        · have hjw1b : priceOf j os model = some w2 := hjw1
          have : w2 = q := by
            rw [hfj] at hjw1b
            exact (Option.some.inj hjw1b).symm
          subst this
          exact sort_head_min _ _ kv tl hs (j, w2) hw2
        · simp at hjw4
    · simp at hkv4

theorem set_minimum_ok_ge {s : String} {mr v : ℚ}
    (h : set_minimum_ram_size_for_instance s mr = .ok v) : mr ≤ v := by
  unfold set_minimum_ram_size_for_instance at h
  split at h
  · cases h
  · rename_i n _
    injection h with h
    subst h
    by_cases hg : ((pyRound ((n : ℚ) / 1000) : ℤ) : ℚ) > mr
    · rw [if_pos hg]
      exact le_of_lt hg
    · rw [if_neg hg]

theorem process_one_host_ok {mr : ℚ} {h : CsvHost} {h2 : ProcHost}
    (hh : process_one_host mr h = .ok h2) :
    mr ≤ h2.RAM ∧ h2.CPUs = h.CPUs := by
  unfold process_one_host at hh
  split at hh
  · cases hh
  · rename_i ram hram
    injection hh with hh
    subst hh
    exact ⟨set_minimum_ok_ge hram, rfl⟩

theorem load_host_row_cpu {c r v o : ℕ} {mc : ℤ} {row : List String}
    {h : CsvHost} (hh : load_host_row c r v o mc row = .ok h) :
    mc ≤ h.CPUs := by
  unfold load_host_row at hh
  split at hh
  · cases hh
  · split at hh
    · cases hh
    · rename_i cpuRaw _
      split at hh
      · cases hh
      · split at hh
        · cases hh
        · split at hh
          · cases hh
          · injection hh with hh
            subst hh
            by_cases hlt : cpuRaw < mc
            · rw [if_pos hlt]
            · rw [if_neg hlt]
              exact le_of_not_lt hlt

theorem exceptMap_ok_mem {α β : Type} (f : α → Except PyErr β) :
    ∀ {l : List α} {out : List β}, exceptMap f l = .ok out →
      ∀ y ∈ out, ∃ x ∈ l, f x = .ok y := by
  intro l
  induction l with
  | nil =>
    intro out h y hy
    rw [exceptMap] at h
    injection h with h
    subst h
    simp at hy
  | cons x xs ih =>
    intro out h y hy
    rw [exceptMap] at h
    split at h
    · cases h
    · rename_i yx hyx
      split at h
      · cases h
      · rename_i ys hys
        injection h with h
        subst h
        rcases List.mem_cons.mp hy with h1 | h2
        · exact ⟨x, List.mem_cons_self _ _, h1 ▸ hyx⟩
        · obtain ⟨x2, hx2, hfx2⟩ := ih hys y h2
          exact ⟨x2, List.mem_cons_of_mem _ hx2, hfx2⟩

theorem foldl_min_le {α : Type} [LinearOrder α] :
    ∀ (xs : List α) (x : α), xs.foldl min x ≤ x ∧ ∀ a ∈ xs, xs.foldl min x ≤ a := by
  intro xs
  induction xs with
  | nil =>
    intro x
    exact ⟨le_refl x, by simp⟩
  | cons y ys ih =>
    intro x
    rw [List.foldl_cons]
    obtain ⟨h1, h2⟩ := ih (min x y)
    refine ⟨le_trans h1 (min_le_left x y), ?_⟩
    intro a ha
    rcases List.mem_cons.mp ha with h3 | h4
    · rw [h3]
      exact le_trans h1 (min_le_right x y)
    · exact h2 a h4

theorem min?_le_of_mem {α : Type} [LinearOrder α] :
    ∀ {l : List α} {m a : α}, l.min? = some m → a ∈ l → m ≤ a := by
  intro l
  induction l with
  | nil => intro m a h; simp [List.min?] at h
  | cons x xs _ =>
    intro m a h ha
    simp only [List.min?] at h
    injection h with h
    subst h
    rcases List.mem_cons.mp ha with h1 | h2
    · exact h1 ▸ (foldl_min_le xs x).1
    · exact (foldl_min_le xs x).2 a h2

theorem load_hosts_cpu_ge {rows : List (List String)} {mc : ℤ}
    {hosts : List CsvHost} (h : load_host_records_from_csv rows mc = .ok hosts) :
    ∀ hh ∈ hosts, mc ≤ hh.CPUs := by
  unfold load_host_records_from_csv at h
  split at h
  · injection h with h
    subst h
    simp
  · split at h
    · cases h
    · split at h
      · cases h
      · split at h
        · cases h
        · split at h
          · cases h
          · intro hh hmem
            obtain ⟨row, _, hrow⟩ := exceptMap_ok_mem _ h hh hmem
            exact load_host_row_cpu hrow

/-! ### Claim theorems -/

/-- Claim C1: the specification states that the capacities of multiple
disk records sharing a machine identifier are SUMMED into the storage
footprint.  The loop in `get_three_year_storage_cost` overwrites `mbytes`
for every matching record instead: for host machine "m" with two disks of
100 MB and 200 MB, the computed footprint is 200/1000 = 1/5 GB — the last
record alone — and not (100+200)/1000 = 3/10 GB.  (The repository
documentation of the disk record in `rv2aws2multithreadtest.py` states
the entries "are added together", so the claim matches the documented
intent and the overwrite is the slip.) -/
theorem C1_storage_overwrites_eval :
    get_three_year_storage_cost ⟨2, 4, "m", "L"⟩
      [⟨"100", "m"⟩, ⟨"200", "m"⟩] 0 = .ok ⟨1/5, 0⟩ ∧
    (1/5 : ℚ) ≠ (100 + 200 : ℚ) / 1000 := by
  constructor
  · have hm : diskMBytes "m" [⟨"100", "m"⟩, ⟨"200", "m"⟩] = .ok 200 := by decide
    simp [get_three_year_storage_cost, hm]
    constructor
    · norm_num
    · norm_num [round2, pyRound]
  · norm_num

/-- Claim C10: for a host none of whose disk records match (and a
non-empty disk list, which the assert requires), the storage computation
succeeds with a footprint of 0 GB and a three-year cost of 0.00. -/
theorem C10_no_matching_disks_zero (host : ProcHost) (disks : List Disk)
    (p : ℚ) (hne : disks ≠ []) (hno : ∀ d ∈ disks, d.VM ≠ host.VM) :
    get_three_year_storage_cost host disks p = .ok ⟨0, 0⟩ := by
  unfold get_three_year_storage_cost
  rw [if_neg hne]
  have hm : diskMBytes host.VM disks = .ok 0 :=
    diskMBytes_no_match host.VM disks 0 hno
  simp only [diskMBytes] at hm
  simp only [diskMBytes, hm]
  norm_num [round2_zero]

/-- Witness for C10 at a concrete input. -/
theorem C10_witness :
    ([⟨"100", "x"⟩] : List Disk) ≠ [] ∧
    (∀ d ∈ ([⟨"100", "x"⟩] : List Disk), d.VM ≠ (⟨2, 4, "m", "L"⟩ : ProcHost).VM) ∧
    get_three_year_storage_cost ⟨2, 4, "m", "L"⟩ [⟨"100", "x"⟩] 1 = .ok ⟨0, 0⟩ :=
  ⟨by simp, by decide,
    C10_no_matching_disks_zero ⟨2, 4, "m", "L"⟩ [⟨"100", "x"⟩] 1 (by simp) (by decide)⟩

/-- Claim C7: the three-year storage cost is
`round2(round2(pricePerGBMonth * storageGB) * 12 * 3)` — monthly cost
rounded to cents, times 12, times 3, rounded to cents — and a
comma-formatted capacity string "1,024" normalizes to 1024/1000 = 1.024
GB (comma removal, then division by 1000). -/
theorem C7_storage_formula :
    (∀ (host : ProcHost) (disks : List Disk) (p : ℚ) (st : StorageInfo),
      get_three_year_storage_cost host disks p = .ok st →
      st.StorageCost = round2 (round2 (p * st.Storage) * 12 * 3)) ∧
    (∀ (host : ProcHost) (p : ℚ) (st : StorageInfo),
      get_three_year_storage_cost host [⟨"1,024", host.VM⟩] p = .ok st →
      st.Storage = 1024 / 1000) := by
  constructor
  · intro host disks p st h
    obtain ⟨mb, _, h1, h2⟩ := get_three_year_storage_cost_ok h
    rw [h2, h1]
  · intro host p st h
    obtain ⟨mb, hmb, h1, _⟩ := get_three_year_storage_cost_ok h
    have hparse : pyIntOfString (stripCommas "1,024") = .ok 1024 := by decide
    have hm : diskMBytes host.VM [⟨"1,024", host.VM⟩] = .ok 1024 := by
      unfold diskMBytes
      rw [List.foldlM_cons, if_pos rfl, hparse]
      show (Except.ok (1024 : ℤ) >>= _) = _
      simp only [bind, Except.bind]
      rfl
    rw [hm] at hmb
    injection hmb with hmb
    rw [h1, ← hmb]
    norm_num

/-- Witness for C7 at a concrete input. -/
theorem C7_witness :
    get_three_year_storage_cost ⟨2, 4, "m", "L"⟩ [⟨"1,024", "m"⟩] 1 =
      .ok ⟨128/125, 3672/100⟩ ∧
    (3672/100 : ℚ) = round2 (round2 (1 * (128/125)) * 12 * 3) ∧
    (128/125 : ℚ) = 1024 / 1000 := by
  have hm : diskMBytes "m" [⟨"1,024", "m"⟩] = .ok 1024 := by decide
  have heval : get_three_year_storage_cost ⟨2, 4, "m", "L"⟩ [⟨"1,024", "m"⟩] 1 =
      .ok ⟨128/125, 3672/100⟩ := by
    simp [get_three_year_storage_cost, hm]
    constructor
    · norm_num
    · norm_num [round2, pyRound]
  refine ⟨heval, ?_, ?_⟩
  · have := C7_storage_formula.1 ⟨2, 4, "m", "L"⟩ [⟨"1,024", "m"⟩] 1
      ⟨128/125, 3672/100⟩ heval
    simpa using this
  · have := C7_storage_formula.2 ⟨2, 4, "m", "L"⟩ 1 ⟨128/125, 3672/100⟩ heval
    simpa using this

/-- Claim C4: every offering identifier returned by the size resolution
names a catalog entry whose vCPU count is at least the CPU requirement
and whose memory size is at least the RAM requirement. -/
theorem C4_sufficiency (cpu : ℤ) (ram : ℚ) (types : List IType)
    (l : List String) (h : get_correct_instance_size cpu ram types = .ok l) :
    ∀ i ∈ l, ∃ t ∈ types, t.type = i ∧ cpu ≤ t.CPU ∧ ram ≤ t.RAM := by
  unfold get_correct_instance_size at h
  by_cases hg : cpu = 0 ∨ ram = 0
  · rw [if_pos hg] at h
    cases h
  · rw [if_neg hg] at h
    split at h
    · cases h
    · rename_i mc hmc
      split at h
      · cases h
      · rename_i r0 hr0
        have hL : (extract_list_from_instance_types (fun t => t.RAM) types).Pairwise
            (· < ·) := sortedDistinct_pairwise _
        obtain ⟨r, hr1, hr2⟩ := size_loop_ok_lookup types mc _ hL _ r0 l h
        intro i hi
        obtain ⟨t, ht, hty, hcpu2, hram2⟩ := lookup_type_ok_mem hr2 i hi
        refine ⟨t, ht, hty, ?_, ?_⟩
        · rw [hcpu2]
          exact fgte_ok_le hmc
        · rw [hram2]
          exact le_trans (fgte_ok_le hr0) hr1

/-- Witness for C4 at a concrete input. -/
theorem C4_witness :
    get_correct_instance_size 2 4 [⟨"a", 2, 4⟩, ⟨"b", 2, 8⟩] = .ok ["a"] ∧
    ∀ i ∈ ["a"], ∃ t ∈ ([⟨"a", 2, 4⟩, ⟨"b", 2, 8⟩] : List IType),
      t.type = i ∧ 2 ≤ t.CPU ∧ 4 ≤ t.RAM :=
  ⟨by decide, C4_sufficiency 2 4 [⟨"a", 2, 4⟩, ⟨"b", 2, 8⟩] ["a"] (by decide)⟩

/-- Counterexample to claim C3 as stated: for the one-entry catalog
`[("a", 2 vCPU, 4 GB)]` and requirement (2, 4), a match exists at the
largest (and only) RAM tier, yet the resolution raises an
`AssertionError` instead of returning it — the loop advances the RAM rung
even after a successful lookup, and the advance asserts a next rung
exists.  No `SizeNotFoundError` exists anywhere in the code. -/
theorem C3_counterexample :
    lookup_type 2 4 [⟨"a", 2, 4⟩] = .ok ["a"] ∧
    get_correct_instance_size 2 4 [⟨"a", 2, 4⟩] = .error .assertionError := by
  decide

/-- Claim C3 (amended): with positive requirements and a catalog of
positive memory sizes, the size resolution equals the ladder walk
described by `ladder_walk`: starting from the RAM ceiling it returns the
first non-empty match — unless that match sits on the LAST rung of the
ladder, in which case (as when no rung matches at all) it fails with an
`AssertionError` raised by the unconditional RAM advance; the code
defines no `SizeNotFoundError`. -/
theorem C3_ladder_walk_characterization (types : List IType) (cpu : ℤ)
    (ram : ℚ) (hcpu : 0 < cpu) (hram : 0 < ram)
    (hpos : ∀ t ∈ types, 0 < t.RAM) :
    get_correct_instance_size cpu ram types =
      match find_greater_than_or_equal
          (extract_list_from_instance_types (fun t => t.CPU) types) cpu with
      | .error e => .error e
      | .ok min_cpu =>
        match find_greater_than_or_equal
            (extract_list_from_instance_types (fun t => t.RAM) types) ram with
        | .error e => .error e
        | .ok _ =>
          ladder_walk types min_cpu
            ((extract_list_from_instance_types (fun t => t.RAM) types).drop
              (bisect_left
                (extract_list_from_instance_types (fun t => t.RAM) types) ram)) := by
  unfold get_correct_instance_size
  rw [if_neg (by push_neg; exact ⟨ne_of_gt hcpu, ne_of_gt hram⟩)]
  cases hmc : find_greater_than_or_equal
      (extract_list_from_instance_types (fun t => t.CPU) types) cpu with
  | error e => rfl
  | ok mc =>
    cases hr0 : find_greater_than_or_equal
        (extract_list_from_instance_types (fun t => t.RAM) types) ram with
    | error e => rfl
    | ok r0 =>
      obtain ⟨hlt, hr0eq⟩ := fgte_ok_spec hr0
      have hL : (extract_list_from_instance_types (fun t => t.RAM) types).Pairwise
          (· < ·) := sortedDistinct_pairwise _
      have hposL : ∀ x ∈ extract_list_from_instance_types (fun t => t.RAM) types,
          0 < x := by
        intro x hx
        have hx2 : x ∈ types.map (fun t => t.RAM) := (mem_sortedDistinct _ _).mp hx
        rw [List.mem_map] at hx2
        obtain ⟨t, ht, rfl⟩ := hx2
        exact hpos t ht
      rw [hr0eq]
      exact size_loop_eq_ladder_walk types mc _ hL hposL _ _ hlt (by omega)

/-- Witness for the amended C3 at a concrete input. -/
theorem C3_witness :
    (0 : ℤ) < 2 ∧ (0 : ℚ) < 4 ∧
    (∀ t ∈ ([⟨"a", 2, 4⟩, ⟨"b", 2, 8⟩] : List IType), 0 < t.RAM) ∧
    get_correct_instance_size 2 4 [⟨"a", 2, 4⟩, ⟨"b", 2, 8⟩] =
      (match find_greater_than_or_equal
          (extract_list_from_instance_types (fun t => t.CPU)
            [⟨"a", 2, 4⟩, ⟨"b", 2, 8⟩]) 2 with
      | .error e => .error e
      | .ok min_cpu =>
        match find_greater_than_or_equal
            (extract_list_from_instance_types (fun t => t.RAM)
              [⟨"a", 2, 4⟩, ⟨"b", 2, 8⟩]) 4 with
        | .error e => .error e
        | .ok _ =>
          ladder_walk [⟨"a", 2, 4⟩, ⟨"b", 2, 8⟩] min_cpu
            ((extract_list_from_instance_types (fun t => t.RAM)
                [⟨"a", 2, 4⟩, ⟨"b", 2, 8⟩]).drop
              (bisect_left
                (extract_list_from_instance_types (fun t => t.RAM)
                  [⟨"a", 2, 4⟩, ⟨"b", 2, 8⟩]) 4))) :=
  ⟨by decide, by decide, by decide,
    C3_ladder_walk_characterization [⟨"a", 2, 4⟩, ⟨"b", 2, 8⟩] 2 4
      (by decide) (by decide) (by decide)⟩

/-- Counterexample to claim C2 as stated: candidates "a" (price 1.9) and
"b" (price 1.5) are both available, yet the function returns "a" — whose
price exceeds the other available candidate price — because the sort key
at aws_pricing.py:169 truncates each price with `int(...)` (both become
1) and the stable sort then keeps the earlier candidate first; the
reported cost is the truncated 1. -/
theorem C2_counterexample :
    (get_least_expensive_option c2PriceTable ["a", "b"] "Linux" "onDemand"
      (fun _ => 0)).1 = (some "a", some 1) ∧
    c2PriceTable "a" "Linux" "onDemand" = some (19/10) ∧
    c2PriceTable "b" "Linux" "onDemand" = some (3/2) ∧
    ¬ ((19/10 : ℚ) ≤ 3/2) := by
  have hba : ("b" : String) = "a" ↔ False := by simp
  have hab : ("a" : String) = "b" ↔ False := by simp
  have hl : ("Linux" : String) = "" ↔ False := by simp
  have hn : (["a", "b"] : List String) = [] ↔ False := by simp
  refine ⟨?_, by simp [c2PriceTable], by simp [c2PriceTable], by norm_num⟩
  norm_num [get_least_expensive_option, c2PriceTable, price_step, dictUpsert,
    insertionSortByKey, insertSortedByKey, pyTrunc, hba, hab, hl, hn]

/-- Claim C2 (amended): for a non-empty OS string, whenever at least one
candidate has an available (non-`None`, non-zero) price,
`get_least_expensive_option` returns an available candidate that is
minimal under INTEGER TRUNCATION of the price: the selected candidate
truncated price is at most every other available candidate truncated
price (the true price may exceed another candidate price within the same
integer band), and the reported cost is that truncated price. -/
theorem C2_cheapest_by_truncated_price
    (priceOf : String → String → String → Option ℚ)
    (instances : List String) (os model : String) (t : String → ℕ)
    (hos : os ≠ "") (i0 : String) (p0 : ℚ) (h0m : i0 ∈ instances)
    (h0p : priceOf i0 os model = some p0) (h0z : p0 ≠ 0) :
    ∃ sel psel,
      (get_least_expensive_option priceOf instances os model t).1 =
        (some sel, some (pyTrunc psel)) ∧
      sel ∈ instances ∧ priceOf sel os model = some psel ∧ psel ≠ 0 ∧
      ∀ j q, j ∈ instances → priceOf j os model = some q → q ≠ 0 →
        pyTrunc psel ≤ pyTrunc q :=
  gleo_min priceOf instances os model t hos i0 p0 h0m h0p h0z

/-- Witness for the amended C2 at a concrete input. -/
theorem C2_witness :
    ("Linux" : String) ≠ "" ∧ "b" ∈ ["a", "b"] ∧
    c2PriceTable "b" "Linux" "onDemand" = some (3/2) ∧ (3/2 : ℚ) ≠ 0 ∧
    ∃ sel psel,
      (get_least_expensive_option c2PriceTable ["a", "b"] "Linux" "onDemand"
        (fun _ => 0)).1 = (some sel, some (pyTrunc psel)) ∧
      sel ∈ ["a", "b"] ∧ c2PriceTable sel "Linux" "onDemand" = some psel ∧
      psel ≠ 0 ∧
      ∀ j q, j ∈ ["a", "b"] → c2PriceTable j "Linux" "onDemand" = some q →
        q ≠ 0 → pyTrunc psel ≤ pyTrunc q :=
  ⟨by simp, by simp, by simp [c2PriceTable], by norm_num,
    C2_cheapest_by_truncated_price c2PriceTable ["a", "b"] "Linux" "onDemand"
      (fun _ => 0) (by simp) "b" (3/2) (by simp) (by simp [c2PriceTable])
      (by norm_num)⟩

/-- Claim C6: the grand total is the two-decimal rounding of instance
cost plus storage cost; a `None` instance cost contributes 0; and when
every commitment-model price is unavailable the produced record carries a
null instance cost, its total equals its storage cost alone, and the
machine identity and storage fields are still populated. -/
theorem C6_total_aggregation :
    (∀ ic sc : ℚ, get_total_cost (some ic) (some sc) = round2 (ic + sc)) ∧
    (∀ sc : ℚ, get_total_cost none (some sc) = round2 sc) ∧
    (∀ (host : ProcHost) (disks : List Disk) (types : List IType)
      (priceOf : String → String → String → Option ℚ) (sp : ℚ)
      (instances : List String) (st : StorageInfo),
      get_correct_instance_size host.CPUs host.RAM types = .ok instances →
      instances ≠ [] →
      host.OS ≠ "" →
      (∀ i m, priceOf i host.OS m = some 0) →
      get_three_year_storage_cost host disks sp = .ok st →
      ∃ rec, find_aws_instance host disks types priceOf sp = .ok (some rec) ∧
        rec.InstanceCost = none ∧ rec.Total = rec.StorageCost ∧
        rec.VM = host.VM ∧ rec.Storage = st.Storage ∧
        rec.StorageCost = st.StorageCost) := by
  refine ⟨fun ic sc => rfl, fun sc => by simp [get_total_cost], ?_⟩
  intro host disks types priceOf sp instances st h1 h2 h3 h4 h5
  have hall : ∀ m, ∀ i ∈ instances, priceOf i host.OS m = some 0 :=
    fun m i _ => h4 i m
  have hg3 : ∀ tal, (get_least_expensive_option priceOf instances host.OS
      "3-year Reserved" tal).1 = (none, none) :=
    fun tal => gleo_all_unavailable priceOf instances host.OS _ tal h2 h3 (hall _)
  obtain ⟨mb, hmb, hst1, hst2⟩ := get_three_year_storage_cost_ok h5
  simp only [find_aws_instance, h1, if_neg h2, h5]
  rw [hg3]
  refine ⟨_, rfl, ?_, ?_, ?_, ?_, ?_⟩
  · rfl
  · show get_total_cost (Option.map (fun z => ((z : ℤ) : ℚ))
        ((none, none) : Option String × Option ℤ).2) (some st.StorageCost) =
      st.StorageCost
    rw [show (Option.map (fun z => ((z : ℤ) : ℚ))
        ((none, none) : Option String × Option ℤ).2) = none from rfl]
    rw [show get_total_cost none (some st.StorageCost) =
        round2 (0 + st.StorageCost) from rfl]
    rw [zero_add, hst2]
    exact round2_round2 _
  · rfl
  · rfl
  · rfl

/-- Witness for C6 at a concrete input. -/
theorem C6_witness :
    get_correct_instance_size 2 4 [⟨"a", 2, 4⟩, ⟨"b", 2, 8⟩] = .ok ["a"] ∧
    (["a"] : List String) ≠ [] ∧ ("Linux" : String) ≠ "" ∧
    (∀ (i m : String), (fun (_ _ _ : String) => some (0 : ℚ)) i "Linux" m = some 0) ∧
    get_three_year_storage_cost ⟨2, 4, "vm1", "Linux"⟩ [⟨"1000", "vm1"⟩] (1/10) =
      .ok ⟨1, 36/10⟩ ∧
    ∃ rec, find_aws_instance ⟨2, 4, "vm1", "Linux"⟩ [⟨"1000", "vm1"⟩]
        [⟨"a", 2, 4⟩, ⟨"b", 2, 8⟩] (fun _ _ _ => some 0) (1/10) = .ok (some rec) ∧
      rec.InstanceCost = none ∧ rec.Total = rec.StorageCost ∧
      rec.VM = (⟨2, 4, "vm1", "Linux"⟩ : ProcHost).VM ∧
      rec.Storage = (⟨1, 36/10⟩ : StorageInfo).Storage ∧
      rec.StorageCost = (⟨1, 36/10⟩ : StorageInfo).StorageCost := by
  have hm : diskMBytes "vm1" [⟨"1000", "vm1"⟩] = .ok 1000 := by decide
  have hst : get_three_year_storage_cost ⟨2, 4, "vm1", "Linux"⟩
      [⟨"1000", "vm1"⟩] (1/10) = .ok ⟨1, 36/10⟩ := by
    simp [get_three_year_storage_cost, hm]
    norm_num [round2, pyRound]
  exact ⟨by decide, by simp, by simp, fun i m => rfl, hst,
    C6_total_aggregation.2.2 ⟨2, 4, "vm1", "Linux"⟩ [⟨"1000", "vm1"⟩]
      [⟨"a", 2, 4⟩, ⟨"b", 2, 8⟩] (fun _ _ _ => some 0) (1/10) ["a"] ⟨1, 36/10⟩
      (by decide) (by simp) (by simp) (fun i m => rfl) hst⟩

/-- Claim C5: the invalid-offering tally that `main` reports at the end
of a run never receives any worker contribution.  At a concrete run in
which every pricing attempt is unavailable, the LOCAL counter built
inside `find_aws_instance` records offering "a" three times (once per
commitment model) and is then discarded, while the tally `main` creates
at main.py:155 and prints at main.py:180-185 — modelled as the second
component of `run_hosts` — still reports zero for "a". -/
theorem C5_tally_never_reported_eval :
    worker_tally ⟨2, 4, "vm1", "Linux"⟩ [⟨"a", 2, 4⟩, ⟨"b", 2, 8⟩]
      (fun _ _ _ => some 0) "a" = 3 ∧
    (run_hosts [⟨2, 4, "vm1", "Linux"⟩] [⟨"1000", "vm1"⟩]
      [⟨"a", 2, 4⟩, ⟨"b", 2, 8⟩] (fun _ _ _ => some 0) 1).2 "a" = 0 := by
  constructor
  · decide
  · rfl

/-- Counterexample to claim C8 as stated: with a disk header lacking any
capacity column, the loader does return an empty record list without
raising — but the run IS aborted: `main` checks `if not hosts or not
disks` (main.py:128-131) and returns exit code 1 before processing any
machine, so no results are produced for machines that would otherwise
succeed. -/
theorem C8_counterexample :
    load_storage_records_from_csv [["VM", "Disk"], ["vm1", "100"]] = .ok [] ∧
    main_after_load [⟨2, 4, "vm1", "L"⟩] [] [] (fun _ _ _ => none) 0 =
      .error 1 := by
  constructor
  · decide
  · unfold main_after_load
    rw [if_pos (Or.inr rfl)]

/-- Claim C8 (amended): a missing required column in the disk table
degrades gracefully AT THE LOADER — `load_storage_records_from_csv`
catches the `ValueError` and returns an empty storage list instead of
raising — but the run is then aborted anyway: with no disk records,
`main` returns exit code 1 at the empty-records check before any machine
is processed, producing no results. -/
theorem C8_loader_degrades_run_aborts (title_row : List String)
    (data_rows : List (List String))
    (hcap : get_csv_column_title title_row
      ["Capacity MB", "Capacity MiB", "Capacity"] = .error .valueError) :
    load_storage_records_from_csv (title_row :: data_rows) = .ok [] ∧
    ∀ (hosts : List ProcHost) (types : List IType)
      (priceOf : String → String → String → Option ℚ) (sp : ℚ),
      main_after_load hosts [] types priceOf sp = .error 1 := by
  constructor
  · simp only [load_storage_records_from_csv, hcap]
  · intro hosts types priceOf sp
    unfold main_after_load
    rw [if_pos (Or.inr rfl)]

/-- Witness for the amended C8 at a concrete input. -/
theorem C8_witness :
    get_csv_column_title ["VM", "Disk"]
      ["Capacity MB", "Capacity MiB", "Capacity"] = .error .valueError ∧
    load_storage_records_from_csv [["VM", "Disk"], ["vm1", "100"]] = .ok [] ∧
    ∀ (hosts : List ProcHost) (types : List IType)
      (priceOf : String → String → String → Option ℚ) (sp : ℚ),
      main_after_load hosts [] types priceOf sp = .error 1 :=
  ⟨by decide,
    (C8_loader_degrades_run_aborts ["VM", "Disk"] [["vm1", "100"]] (by decide)).1,
    (C8_loader_degrades_run_aborts ["VM", "Disk"] [["vm1", "100"]] (by decide)).2⟩

/-- Claim C9: the loaded host requirements are clamped at or above the
catalog minimum — the minimum values returned by `get_minimum_cpu_size`
and `get_minimum_ram_size` bound every catalog entry from below, and
every host record that survives loading and RAM processing has a CPU
count at least the catalog minimum CPU and a RAM size at least the
catalog minimum RAM. -/
theorem C9_clamped_requirements (types : List IType) (mc : ℤ) (mr : ℚ)
    (rows : List (List String)) (hosts : List CsvHost)
    (hosts2 : List ProcHost)
    (hmc : get_minimum_cpu_size types = .ok mc)
    (hmr : get_minimum_ram_size types = .ok mr)
    (hload : load_host_records_from_csv rows mc = .ok hosts)
    (hproc : process_host_ram hosts mr = .ok hosts2) :
    (∀ t ∈ types, mc ≤ t.CPU) ∧ (∀ t ∈ types, mr ≤ t.RAM) ∧
    ∀ h ∈ hosts2, mc ≤ h.CPUs ∧ mr ≤ h.RAM := by
  refine ⟨?_, ?_, ?_⟩
  · intro t ht
    unfold get_minimum_cpu_size at hmc
    split at hmc
    · rename_i m hm
      injection hmc with hmc
      subst hmc
      exact min?_le_of_mem hm (List.mem_map_of_mem _ ht)
    · cases hmc
  · intro t ht
    unfold get_minimum_ram_size at hmr
    split at hmr
    · rename_i m hm
      injection hmr with hmr
      subst hmr
      exact min?_le_of_mem hm (List.mem_map_of_mem _ ht)
    · cases hmr
  · intro h2 hmem
    unfold process_host_ram at hproc
    obtain ⟨h1, hh1, hph⟩ := exceptMap_ok_mem _ hproc h2 hmem
    obtain ⟨hram, hcpus⟩ := process_one_host_ok hph
    exact ⟨hcpus ▸ load_hosts_cpu_ge hload h1 hh1, hram⟩

/-- Witness for C9 at a concrete input. -/
theorem C9_witness :
    get_minimum_cpu_size [⟨"a", 2, 4⟩, ⟨"b", 2, 8⟩] = .ok 2 ∧
    get_minimum_ram_size [⟨"a", 2, 4⟩, ⟨"b", 2, 8⟩] = .ok 4 ∧
    load_host_records_from_csv
      [["VM", "CPUs", "Max", "OS according to the configuration file"],
       ["vm1", "2", "1,024", "Linux"]] 2 = .ok [⟨2, "1,024", "vm1", "Linux"⟩] ∧
    process_host_ram [⟨2, "1,024", "vm1", "Linux"⟩] 4 =
      .ok [⟨2, 4, "vm1", "Linux"⟩] ∧
    ((∀ t ∈ ([⟨"a", 2, 4⟩, ⟨"b", 2, 8⟩] : List IType), 2 ≤ t.CPU) ∧
     (∀ t ∈ ([⟨"a", 2, 4⟩, ⟨"b", 2, 8⟩] : List IType), 4 ≤ t.RAM) ∧
     ∀ h ∈ ([⟨2, 4, "vm1", "Linux"⟩] : List ProcHost),
       2 ≤ h.CPUs ∧ 4 ≤ h.RAM) := by
  have hproc : process_host_ram [⟨2, "1,024", "vm1", "Linux"⟩] 4 =
      .ok [⟨2, 4, "vm1", "Linux"⟩] := by
    have hparse : pyIntOfString (stripCommas "1,024") = .ok 1024 := by decide
    have hset : set_minimum_ram_size_for_instance (stripCommas "1,024") 4 =
        .ok 4 := by
      unfold set_minimum_ram_size_for_instance
      rw [hparse]
      norm_num [pyRound]
    simp only [process_host_ram, exceptMap, process_one_host, hset]
  exact ⟨by decide, by decide, by decide, hproc,
    C9_clamped_requirements [⟨"a", 2, 4⟩, ⟨"b", 2, 8⟩] 2 4
      [["VM", "CPUs", "Max", "OS according to the configuration file"],
       ["vm1", "2", "1,024", "Linux"]]
      [⟨2, "1,024", "vm1", "Linux"⟩] [⟨2, 4, "vm1", "Linux"⟩]
      (by decide) (by decide) (by decide) hproc⟩

end Rv2aws
